import Mathlib

/-!
Shallow embedding of the PDF threat-intelligence ingestion pipeline
(`preprocessing.py`) together with proofs about the claims of its
specification.

The embedding works over `List Char` (Python `str` is a sequence of code
points; all inputs of interest are ASCII, and the Python regex classes are
modelled on their ASCII fragment).  Regex `findall` calls are translated,
pattern by pattern, into explicit left-to-right scanners with the same
leftmost/greedy semantics as the Python `re` engine for each concrete
pattern appearing in the source.  External collaborators (the phone-number
library, the embedding model, spaCy, the database connections) are
injected as explicit parameters, mirroring the way the source consumes
them.
-/

namespace Pipeline

/-- Python `\w` (ASCII fragment): letters, digits, underscore. -/
def isWordChar (c : Char) : Bool := c.isAlphanum || c == '_'

/-- Python `\s` (ASCII fragment): the six ASCII whitespace characters. -/
def isSpaceC (c : Char) : Bool :=
  c == ' ' || c == '\t' || c == '\n' || c == '\r' || c == '\x0b' || c == '\x0c'

/-- Character class `[a-zA-Z0-9-]` of the domain pattern's labels. -/
def isLabelChar (c : Char) : Bool := c.isAlphanum || c == '-'

/-- Character class `[a-zA-Z0-9._%+-]` of the email pattern's local part. -/
def isLocalChar (c : Char) : Bool :=
  c.isAlphanum || c == '.' || c == '_' || c == '%' || c == '+' || c == '-'

/-- Character class `[a-zA-Z0-9.-]` of the email pattern's domain part. -/
def isEmailDomChar (c : Char) : Bool := c.isAlphanum || c == '.' || c == '-'

/-- Character class `[\w\-]` of the social-handle pattern. -/
def isHandleChar (c : Char) : Bool := isWordChar c || c == '-'

/-- A computation-friendly decision procedure for the lexicographic
order on strings (the registered instance goes through iterator
recursion, which does not reduce well in the kernel). -/
def strLeDec : DecidableRel (α := String) (· ≤ ·) := fun a b =>
  decidable_of_iff (a.toList ≤ b.toList) String.le_iff_toList_le.symm

/-- Python's `sorted(set(...))` on strings: deduplicate, then sort
lexicographically by code points. -/
def sortedSet (l : List String) : List String :=
  @List.insertionSort String (· ≤ ·) strLeDec l.dedup

theorem sortedSet_sorted (l : List String) :
    List.Sorted (· ≤ ·) (sortedSet l) :=
  @List.sorted_insertionSort String (· ≤ ·) strLeDec _ _ l.dedup

theorem sortedSet_nodup (l : List String) : (sortedSet l).Nodup :=
  (@List.perm_insertionSort String (· ≤ ·) strLeDec l.dedup).nodup_iff.2
    l.nodup_dedup

theorem mem_sortedSet {a : String} {l : List String} :
    a ∈ sortedSet l ↔ a ∈ l := by
  rw [sortedSet, @List.mem_insertionSort String (· ≤ ·) strLeDec, List.mem_dedup]

/-- `\b` check after a match ending in a word character: the next
character, if any, must not be a word character. -/
def boundaryAfter : List Char → Bool
  | [] => true
  | c :: _ => !(isWordChar c)

/-- Wordness of the last character of an emitted match (used to track the
`\b` context when the scanner resumes after a match). -/
def endWord (m : List Char) (dflt : Bool) : Bool :=
  match m.getLast? with
  | some c => isWordChar c
  | none => dflt

/-- Generic `re.findall` scanner for a pattern with no `\b` at its start:
try the pattern at each position from the left; on success emit the match
and resume right after it, otherwise advance one character.  `tryf`
returns the matched characters and the remaining suffix. -/
def scan (tryf : List Char → Option (List Char × List Char)) :
    Nat → List Char → List (List Char)
  | 0, _ => []
  | _, [] => []
  | fuel+1, c :: rest =>
    match tryf (c :: rest) with
    | some (m, rest') => m :: scan tryf fuel rest'
    | none => scan tryf fuel rest

/-- Generic `re.findall` scanner for a pattern starting with `\b`: the
pattern is attempted only at positions where the wordness of the previous
character differs from the wordness of the current one. -/
def scanB (tryf : List Char → Option (List Char × List Char)) :
    Nat → Bool → List Char → List (List Char)
  | 0, _, _ => []
  | _, _, [] => []
  | fuel+1, prevW, c :: rest =>
    if prevW != isWordChar c then
      match tryf (c :: rest) with
      | some (m, rest') => m :: scanB tryf fuel (endWord m prevW) rest'
      | none => scanB tryf fuel (isWordChar c) rest
    else scanB tryf fuel (isWordChar c) rest

/-- Attempt of the social-handle pattern `@[\w\-]+` at the current
position. -/
def trySocial : List Char → Option (List Char × List Char)
  | [] => none
  | c :: rest =>
    if c = '@' then
      let run := rest.takeWhile isHandleChar
      if run.isEmpty then none
      else some ('@' :: run, rest.drop run.length)
    else none

/-- `re.findall(r"@[\w\-]+", ·)`. -/
def socialFindall (l : List Char) : List (List Char) :=
  scan trySocial l.length l

/-- One repetition `\d{1,3}\.` of the IP pattern: since `.` is not a
digit, the greedy bounded quantifier succeeds exactly when the maximal
digit run at the position has length 1–3 and is followed by a dot. -/
def ipRep (l : List Char) : Option (List Char × List Char) :=
  let d := l.takeWhile Char.isDigit
  if d.length < 1 || 3 < d.length then none
  else
    match l.drop d.length with
    | '.' :: rest => some (d ++ ['.'], rest)
    | _ => none

/-- Attempt of `(?:\d{1,3}\.){3}\d{1,3}\b` at the current position (the
leading `\b` is handled by the scanner). -/
def tryIp (l : List Char) : Option (List Char × List Char) := do
  let (a, l1) ← ipRep l
  let (b, l2) ← ipRep l1
  let (c, l3) ← ipRep l2
  let d := l3.takeWhile Char.isDigit
  if d.length < 1 || 3 < d.length then none
  else
    let rest := l3.drop d.length
    if boundaryAfter rest then some (a ++ b ++ c ++ d, rest) else none

/-- `re.findall(r"\b(?:\d{1,3}\.){3}\d{1,3}\b", ·)`. -/
def ipFindall (l : List Char) : List (List Char) :=
  scanB tryIp l.length false l

/-- The literal alternative `https?://` (the greedy `s?` tries the
`https` branch first). -/
def stripHttp : List Char → Option (List Char × List Char)
  | 'h' :: 't' :: 't' :: 'p' :: 's' :: ':' :: '/' :: '/' :: rest =>
    some (['h', 't', 't', 'p', 's', ':', '/', '/'], rest)
  | 'h' :: 't' :: 't' :: 'p' :: ':' :: '/' :: '/' :: rest =>
    some (['h', 't', 't', 'p', ':', '/', '/'], rest)
  | _ => none

/-- Attempt of `https?://[^\s/$.?#].[^\s]*` at the current position.
After the scheme: one character outside `\s/$.?#`, one arbitrary
character other than a newline (Python `.`), then the maximal run of
non-whitespace characters. -/
def tryUrl (l : List Char) : Option (List Char × List Char) :=
  match stripHttp l with
  | none => none
  | some (pre, rest) =>
    match rest with
    | c1 :: c2 :: rest2 =>
      if !isSpaceC c1 && c1 != '/' && c1 != '$' && c1 != '.' && c1 != '?' &&
          c1 != '#' && c2 != '\n' then
        let run := rest2.takeWhile (fun c => !isSpaceC c)
        some (pre ++ c1 :: c2 :: run, rest2.drop run.length)
      else none
    | _ => none

/-- `re.findall(r"https?://[^\s/$.?#].[^\s]*", ·)`. -/
def urlFindall (l : List Char) : List (List Char) :=
  scan tryUrl l.length l

/-- Greedy split of the email pattern's part after the `@`: inside the
maximal run `d` of `[a-zA-Z0-9.-]` characters, find the largest `k ≥ 1`
such that `d` has a dot at index `k` followed by at least two letters
(`[a-zA-Z0-9.-]+` backtracks from the longest prefix; `[a-zA-Z]{2,}` is
then greedy). -/
def emailDomSplit (d : List Char) : Option (List Char × List Char) :=
  (List.range d.length).reverse.findSome? fun k =>
    if k < 1 then none
    else if d.getD k ' ' == '.' then
      let t := (d.drop (k+1)).takeWhile Char.isAlpha
      if 2 ≤ t.length then some (d.take k, t) else none
    else none

/-- Attempt of `[a-zA-Z0-9._%+-]+@[a-zA-Z0-9.-]+\.[a-zA-Z]{2,}` at the
current position.  Since `@` is not a local-part character, the greedy
local part succeeds exactly when the maximal local run is nonempty and
followed by `@`. -/
def tryEmail (l : List Char) : Option (List Char × List Char) :=
  let loc := l.takeWhile isLocalChar
  if loc.isEmpty then none
  else
    match l.drop loc.length with
    | '@' :: rest =>
      let d := rest.takeWhile isEmailDomChar
      match emailDomSplit d with
      | none => none
      | some (x, t) =>
        some (loc ++ '@' :: (x ++ '.' :: t), rest.drop (x.length + 1 + t.length))
    | _ => none

/-- `re.findall(r"[a-zA-Z0-9._%+-]+@[a-zA-Z0-9.-]+\.[a-zA-Z]{2,}", ·)`. -/
def emailFindall (l : List Char) : List (List Char) :=
  scan tryEmail l.length l

/-- All greedy parses of `(?:[a-zA-Z0-9-]+\.)+` at the current position:
entry `j` holds the characters consumed by the first `j+1` repetitions
and the remaining suffix.  Each repetition is rigid: the maximal label
run must be nonempty and followed by a dot. -/
def domainReps : Nat → List Char → List (List Char × List Char)
  | 0, _ => []
  | fuel+1, l =>
    let run := l.takeWhile isLabelChar
    if run.isEmpty then []
    else
      match l.drop run.length with
      | '.' :: rest =>
        (run ++ ['.'], rest) ::
          (domainReps fuel rest).map (fun p => (run ++ '.' :: p.1, p.2))
      | _ => []

/-- Attempt of the trailing `[a-zA-Z]{2,6}\b` of the domain pattern: the
maximal letter run must have length 2–6 (a longer run leaves a word
character after every allowed cut) and be followed by a non-word
character or the end of input. -/
def tryDomainTld (l : List Char) : Option (List Char × List Char) :=
  let t := l.takeWhile Char.isAlpha
  if 2 ≤ t.length && t.length ≤ 6 then
    let rest := l.drop t.length
    if boundaryAfter rest then some (t, rest) else none
  else none

/-- Attempt of `(?:[a-zA-Z0-9-]+\.)+[a-zA-Z]{2,6}\b` at the current
position: the repetition count backtracks from the greedy maximum until
the trailing top-level label fits. -/
def tryDomain (l : List Char) : Option (List Char × List Char) :=
  (domainReps l.length l).reverse.findSome? fun p =>
    (tryDomainTld p.2).map fun q => (p.1 ++ q.1, q.2)

/-- `re.findall(r"\b(?:[a-zA-Z0-9-]+\.)+[a-zA-Z]{2,6}\b", ·)`. -/
def domainFindall (l : List Char) : List (List Char) :=
  scanB tryDomain l.length false l

/-- Attempt of `UA-\d{4,}-\d+\b` at the current position (leading `\b`
handled by the scanner). -/
def tryUA : List Char → Option (List Char × List Char)
  | 'U' :: 'A' :: '-' :: rest =>
    let d1 := rest.takeWhile Char.isDigit
    if d1.length < 4 then none
    else
      match rest.drop d1.length with
      | '-' :: rest2 =>
        let d2 := rest2.takeWhile Char.isDigit
        if d2.isEmpty then none
        else
          let rest3 := rest2.drop d2.length
          if boundaryAfter rest3 then
            some ('U' :: 'A' :: '-' :: (d1 ++ '-' :: d2), rest3)
          else none
      | _ => none
  | _ => none

/-- `re.findall(r"\bUA-\d{4,}-\d+\b", ·)`. -/
def uaFindall (l : List Char) : List (List Char) :=
  scanB tryUA l.length false l

/-- Attempt of `Pub-\d{5,}\b` at the current position. -/
def tryPub : List Char → Option (List Char × List Char)
  | 'P' :: 'u' :: 'b' :: '-' :: rest =>
    let d := rest.takeWhile Char.isDigit
    if d.length < 5 then none
    else
      let rest2 := rest.drop d.length
      if boundaryAfter rest2 then
        some ('P' :: 'u' :: 'b' :: '-' :: d, rest2)
      else none
  | _ => none

/-- `re.findall(r"\bPub-\d{5,}\b", ·)`. -/
def pubFindall (l : List Char) : List (List Char) :=
  scanB tryPub l.length false l

/-- Split a character list at every dot. -/
def splitDots : List Char → List (List Char)
  | [] => [[]]
  | '.' :: rest => [] :: splitDots rest
  | c :: rest =>
    match splitDots rest with
    | [] => [[c]]
    | p :: ps => (c :: p) :: ps

/-- Decimal value of a digit run. -/
def octetVal (l : List Char) : Nat :=
  l.foldl (fun n c => 10 * n + (c.toNat - 48)) 0

/-- One octet as accepted by Python's `ipaddress.ip_address`: a nonempty
digit run, value at most 255, and no leading zero (only `"0"` itself may
start with `'0'`). -/
def validOctet (l : List Char) : Bool :=
  !l.isEmpty && l.all Char.isDigit && (l.length == 1 || l.headD '0' != '0') &&
    octetVal l ≤ 255

/-- Acceptance of a dotted-quad candidate by `ipaddress.ip_address`
(external standard-library collaborator; Python ≥ 3.9 semantics: four
octets, each 0–255, leading zeros rejected).  This is also the strict
IPv4 validity the spec describes. -/
def isValidIPv4 (l : List Char) : Bool :=
  let parts := splitDots l
  parts.length == 4 && parts.all validOctet

/-- `List.isPrefixOf` spelled out (used to model Python `str.endswith`). -/
def startsWithSeq : List Char → List Char → Bool
  | [], _ => true
  | _ :: _, [] => false
  | a :: as, b :: bs => a == b && startsWithSeq as bs

/-- Python `str.endswith`. -/
def endsWithSeq (suf l : List Char) : Bool :=
  startsWithSeq suf.reverse l.reverse

/-- Python `str.lower` on the ASCII fragment. -/
def lowerStr (l : List Char) : List Char := l.map Char.toLower

/-- The enumerated non-domain file extensions of
`extract_indicators_by_category` (note: `"exe"` is not among them). -/
def file_exts : List String :=
  ["pdf", "html", "htm", "jpg", "jpeg", "png", "gif", "bmp", "tiff", "mp4",
   "mov", "avi", "webp"]

/-- The fixed region list of the phone-extraction loop. -/
def phoneRegions : List String := ["US", "NP", "FR", "DE"]

/-- The mapping returned by `extract_indicators_by_category`, with the
seven categories in the dictionary's insertion order. -/
structure Indicators where
  domains : List String
  urls : List String
  ips : List String
  emails : List String
  phones : List String
  social_handles : List String
  tracking_ids : List String
  deriving Repr, DecidableEq

/-- `IndicatorExtractor.extract_indicators_by_category`.  The phone-number
library (`phonenumbers`) is an external collaborator and is injected as
`phoneOracle region text`, returning `some` list of E.164-formatted
matches, or `none` when matching for that region raises (the source
skips such regions silently). -/
def extract_indicators_by_category
    (phoneOracle : String → String → Option (List String)) (text : String) :
    Indicators :=
  let cs := text.data
  { domains := sortedSet (((domainFindall cs).filter fun m =>
      !(file_exts.any fun e =>
        endsWithSeq ('.' :: e.data) (lowerStr m))).map fun m =>
          String.mk (lowerStr m))
    urls := sortedSet ((urlFindall cs).map String.mk)
    ips := sortedSet (((ipFindall cs).filter isValidIPv4).map String.mk)
    emails := sortedSet ((emailFindall cs).map fun m => String.mk (lowerStr m))
    phones := sortedSet (phoneRegions.flatMap fun r =>
      match phoneOracle r text with
      | some ms => ms
      | none => [])
    social_handles := sortedSet ((socialFindall cs).map String.mk)
    tracking_ids := sortedSet (((uaFindall cs).map String.mk) ++
      ((pubFindall cs).map String.mk)) }

/-- Collapse every run of whitespace to a single space
(`re.sub(r"\s+", " ", text)`). -/
def collapseWs : List Char → List Char
  | [] => []
  | [c] => if isSpaceC c then [' '] else [c]
  | c1 :: c2 :: rest =>
    if isSpaceC c1 && isSpaceC c2 then collapseWs (c2 :: rest)
    else (if isSpaceC c1 then ' ' else c1) :: collapseWs (c2 :: rest)

/-- The four single-character replacements of `TextProcessor.clean_text`:
curly double quotes to `"`, curly apostrophe to `'`, en dash to `-`. -/
def replaceQuotes (c : Char) : Char :=
  if c = '“' || c = '”' then '"'
  else if c = '’' then '\''
  else if c = '–' then '-'
  else c

/-- Python `str.strip`. -/
def stripSpaces (l : List Char) : List Char :=
  ((l.dropWhile isSpaceC).reverse.dropWhile isSpaceC).reverse

/-- `TextProcessor.clean_text`: whitespace collapse, quote normalization,
strip. -/
def clean_text (s : String) : String :=
  String.mk (stripSpaces ((collapseWs s.data).map replaceQuotes))

/-- Split into consecutive groups of at most `cs` characters (the
"arbitrary cut" of the secondary splitter's final `""` separator). -/
def charChunksAux (cs : Nat) : Nat → List Char → List (List Char)
  | 0, l => if l.isEmpty then [] else [l]
  | fuel+1, l =>
    if l.length ≤ cs then (if l.isEmpty then [] else [l])
    else l.take cs :: charChunksAux cs fuel (l.drop cs)

def charChunks (cs : Nat) (l : List Char) : List (List Char) :=
  charChunksAux cs l.length l

/-- Split off everything before the first occurrence of `sep`, if any. -/
def splitFirstAux (sep : List Char) : Nat → List Char → Option (List Char × List Char)
  | 0, _ => none
  | fuel+1, l =>
    if startsWithSeq sep l then some ([], l.drop sep.length)
    else
      match l with
      | [] => none
      | c :: rest => (splitFirstAux sep fuel rest).map fun p => (c :: p.1, p.2)

def splitOnSepAux (sep : List Char) : Nat → List Char → List (List Char)
  | 0, l => [l]
  | fuel+1, l =>
    match splitFirstAux sep l.length l with
    | none => [l]
    | some (pre, post) => pre :: splitOnSepAux sep fuel post

/-- Split a text at every occurrence of the (nonempty) separator. -/
def splitOnSep (sep l : List Char) : List (List Char) :=
  splitOnSepAux sep (l.length + 1) l

/-- Modelled from the spec: the secondary, purely length-based recursive
splitter (`RecursiveCharacterTextSplitter`, an external langchain
collaborator not part of this repository).  Per the spec it tries the
ordered separator list from coarsest to finest, only falling to a finer
separator for a piece the coarser one could not keep under `cs`; the
final `""` separator cuts at arbitrary character positions.  The overlap
parameter does not affect the stated size bound and is not modelled. -/
def recursiveSplit (cs : Nat) : List (List Char) → List Char → List (List Char)
  | seps, t =>
    if t.length ≤ cs then [t]
    else
      match seps with
      | [] => [t]
      | sep :: rest =>
        if sep.isEmpty then charChunks cs t
        else
          ((splitOnSep sep t).filter fun p => !p.isEmpty).flatMap fun piece =>
            if piece.length ≤ cs then [piece] else recursiveSplit cs rest piece

/-- The separator list passed to the recursive splitter by
`chunk_text`. -/
def defaultSeparators : List (List Char) :=
  [['\n', '\n'], ['\n'], ['.', ' '], [' '], []]

/-- `TextProcessor.chunk_text`.  The primary spaCy splitter is an external
collaborator, injected as the `Except` result of its `split_text` call on
the text (`.error` when it raises).  On the primary's success, any
oversized segment is re-split by the secondary splitter in place; on its
failure, the whole text goes to the secondary splitter. -/
def chunk_text (primary : Except String (List String)) (chunkSize : Nat)
    (text : String) : List String :=
  match primary with
  | .ok chunks =>
    chunks.flatMap fun c =>
      if chunkSize < c.length then
        (recursiveSplit chunkSize defaultSeparators c.data).map String.mk
      else [c]
  | .error _ => (recursiveSplit chunkSize defaultSeparators text.data).map String.mk

/-- UTF-8 encoding of one code point. -/
def utf8Char (n : Nat) : List Nat :=
  if n < 128 then [n]
  else if n < 2048 then [192 + n / 64, 128 + n % 64]
  else if n < 65536 then
    [224 + n / 4096, 128 + (n / 64) % 64, 128 + n % 64]
  else
    [240 + n / 262144, 128 + (n / 4096) % 64, 128 + (n / 64) % 64, 128 + n % 64]

/-- Python `str.encode("utf-8")` as a byte list. -/
def utf8Bytes (s : String) : List Nat :=
  s.data.flatMap fun c => utf8Char c.toNat

/-- Rotate a 32-bit word left by `n` (pure arithmetic on `Nat`). -/
def rotl (n x : Nat) : Nat :=
  (x % 2 ^ (32 - n)) * 2 ^ n + x / 2 ^ (32 - n)

/-- Big-endian 32-bit words of a 64-byte block. -/
def bytesToWords : List Nat → List Nat
  | b0 :: b1 :: b2 :: b3 :: rest =>
    (((b0 * 256 + b1) * 256 + b2) * 256 + b3) :: bytesToWords rest
  | _ => []

/-- SHA-1 message-schedule extension, building the word list reversed. -/
def extendW : Nat → List Nat → List Nat
  | 0, acc => acc
  | n+1, acc =>
    let w := rotl 1 ((((acc.getD 2 0).xor (acc.getD 7 0)).xor
      (acc.getD 13 0)).xor (acc.getD 15 0))
    extendW n (w :: acc)

/-- SHA-1 round function for round `t`. -/
def shaF (t b c d : Nat) : Nat :=
  if t < 20 then (b.land c).lor ((4294967295 - b).land d)
  else if t < 40 then (b.xor c).xor d
  else if t < 60 then ((b.land c).lor (b.land d)).lor (c.land d)
  else (b.xor c).xor d

/-- SHA-1 round constant for round `t`. -/
def shaK (t : Nat) : Nat :=
  if t < 20 then 1518500249
  else if t < 40 then 1859775393
  else if t < 60 then 2400959708
  else 3395469782

/-- One SHA-1 round. -/
def shaRound (st : Nat × Nat × Nat × Nat × Nat) (tw : Nat × Nat) :
    Nat × Nat × Nat × Nat × Nat :=
  let (a, b, c, d, e) := st
  let temp := (rotl 5 a + shaF tw.1 b c d + e + shaK tw.1 + tw.2) % 4294967296
  (temp, a, rotl 30 b, c, d)

/-- Process one 64-byte block. -/
def shaBlock (h : Nat × Nat × Nat × Nat × Nat) (block : List Nat) :
    Nat × Nat × Nat × Nat × Nat :=
  let w16 := bytesToWords block
  let w := (extendW 64 w16.reverse).reverse
  let (h0, h1, h2, h3, h4) := h
  let (a, b, c, d, e) := w.enum.foldl shaRound h
  ((h0 + a) % 4294967296, (h1 + b) % 4294967296, (h2 + c) % 4294967296,
    (h3 + d) % 4294967296, (h4 + e) % 4294967296)

/-- Split a byte list into 64-byte blocks. -/
def toBlocks : Nat → List Nat → List (List Nat)
  | 0, _ => []
  | _, [] => []
  | fuel+1, l => l.take 64 :: toBlocks fuel (l.drop 64)

/-- Big-endian bytes of a 32-bit word. -/
def wordBytes (x : Nat) : List Nat :=
  [x / 16777216 % 256, x / 65536 % 256, x / 256 % 256, x % 256]

/-- SHA-1 digest (20 bytes) of a byte list. -/
def sha1Bytes (msg : List Nat) : List Nat :=
  let len := msg.length
  let zeros := (119 - len % 64) % 64
  let bitLen := 8 * len
  let lenBytes := [bitLen / 2 ^ 56 % 256, bitLen / 2 ^ 48 % 256,
    bitLen / 2 ^ 40 % 256, bitLen / 2 ^ 32 % 256, bitLen / 2 ^ 24 % 256,
    bitLen / 2 ^ 16 % 256, bitLen / 2 ^ 8 % 256, bitLen % 256]
  let padded := msg ++ 128 :: List.replicate zeros 0 ++ lenBytes
  let init : Nat × Nat × Nat × Nat × Nat :=
    (1732584193, 4023233417, 2562383102, 271733878, 3285377520)
  let (h0, h1, h2, h3, h4) :=
    (toBlocks (padded.length + 1) padded).foldl shaBlock init
  wordBytes h0 ++ wordBytes h1 ++ wordBytes h2 ++ wordBytes h3 ++ wordBytes h4

/-- Lower-case hex digit. -/
def hexDigit (n : Nat) : Char :=
  if n < 10 then Char.ofNat (48 + n) else Char.ofNat (87 + n)

/-- Two lower-case hex digits of a byte. -/
def hexByte (b : Nat) : List Char := [hexDigit (b / 16), hexDigit (b % 16)]

/-- The 16 bytes of `uuid.NAMESPACE_DNS`. -/
def namespaceDNS : List Nat :=
  [107, 167, 184, 16, 157, 173, 17, 209, 128, 180, 0, 192, 79, 212, 48, 200]

/-- Hyphenated textual form of a 16-byte UUID. -/
def uuidFormat (bs : List Nat) : String :=
  String.mk ((bs.take 4).flatMap hexByte ++
    '-' :: ((bs.drop 4).take 2).flatMap hexByte ++
    '-' :: ((bs.drop 6).take 2).flatMap hexByte ++
    '-' :: ((bs.drop 8).take 2).flatMap hexByte ++
    '-' :: (bs.drop 10).flatMap hexByte)

/-- `str(uuid.uuid5(uuid.NAMESPACE_DNS, name))`: SHA-1 of the namespace
bytes followed by the UTF-8 name, truncated to 16 bytes, with the
version (5) and variant bits set. -/
def uuid5DNS (name : String) : String :=
  let d := (sha1Bytes (namespaceDNS ++ utf8Bytes name)).take 16
  uuidFormat (d.take 6 ++ (d.getD 6 0 % 16 + 80) :: d.getD 7 0 ::
    (d.getD 8 0 % 64 + 128) :: d.drop 9)

/-- A row of `pdf.documents`. -/
structure DocumentRow where
  uuid : String
  name : String
  path : String
  language : String
  deriving Repr, DecidableEq

/-- A row of `pdf.chunks`. -/
structure ChunkRow where
  uuid : String
  document_uuid : String
  text : String
  embedding : List Int
  indicators : List String
  page : Nat
  language : String
  deriving Repr, DecidableEq

/-- The relational store visible to the cursor. -/
structure PGState where
  documents : List DocumentRow
  chunks : List ChunkRow
  deriving Repr, DecidableEq

/-- `SELECT uuid FROM pdf.documents WHERE name = %s` with `fetchone`. -/
def findByName (rows : List DocumentRow) (name : String) : Option DocumentRow :=
  rows.find? fun r => r.name == name

/-- `PostgreSQLRepository.insert_document`; `doc_uuid` models the
`uuid.uuid4()` generated for the default argument. -/
def insert_document (st : PGState) (name path language doc_uuid : String) :
    String × PGState :=
  match findByName st.documents name with
  | some r => (r.uuid, st)
  | none =>
    (doc_uuid,
      { st with documents := st.documents ++ [⟨doc_uuid, name, path, language⟩] })

/-- `PostgreSQLRepository.insert_chunk`; the embedding service is the
injected `embed` collaborator, `chunk_uuid` models `uuid.uuid4()`. -/
def insert_chunk (embed : String → List Int) (st : PGState)
    (document_uuid text : String) (indicators : List String) (page : Nat)
    (language chunk_uuid : String) : String × PGState :=
  (chunk_uuid,
    { st with chunks := st.chunks ++
      [⟨chunk_uuid, document_uuid, text, embed text, indicators, page, language⟩] })

/-- `TextProcessor.detect_language`: the probabilistic detector
(langdetect) is external; its outcome for the text is injected as an
`Except` (`.error` when it raises).  The source keeps only the `en`,
`fr`, `de` families and falls back to `"en"`. -/
def detect_language (r : Except String String) : String :=
  match r with
  | .error _ => "en"
  | .ok l =>
    match l.data with
    | 'e' :: 'n' :: _ => "en"
    | 'f' :: 'r' :: _ => "fr"
    | 'd' :: 'e' :: _ => "de"
    | _ => "en"

/-- One `MENTIONED_IN` edge created by `Neo4jRepository.insert_indicators`
together with the indicator node it merges. -/
structure MentionOp where
  ind_uuid : String
  val : String
  cat : String
  doc_uuid : String
  page : String
  rel_uuid : String
  deriving Repr, DecidableEq

/-- The category/value pairs of an extraction result, in the dictionary's
insertion order. -/
def Indicators.toPairs (i : Indicators) : List (String × List String) :=
  [("domains", i.domains), ("urls", i.urls), ("ips", i.ips),
   ("emails", i.emails), ("phones", i.phones),
   ("social_handles", i.social_handles), ("tracking_ids", i.tracking_ids)]

/-- `Neo4jRepository.insert_indicators`: for every (page, category,
value) triple, an indicator node keyed by
`uuid5(NAMESPACE_DNS, f"{category}:{value}")` and a fresh mention edge;
`relGen i` models the i-th `uuid.uuid4()` drawn for a relationship, and
the edge's `page` property is `str(page_num)`. -/
def insert_indicators (doc_uuid : String) (byPage : List (Nat × Indicators))
    (relGen : Nat → String) : List MentionOp :=
  let triples := byPage.flatMap fun pi =>
    pi.2.toPairs.flatMap fun cv => cv.2.map fun v => (pi.1, cv.1, v)
  triples.enum.map fun it =>
    ⟨uuid5DNS (it.2.2.1 ++ ":" ++ it.2.2.2), it.2.2.2, it.2.2.1, doc_uuid,
      toString it.2.1, relGen it.1⟩

/-- Failure injections for the graph phase: the connection test run by
`Neo4jRepository.__init__`, and exceptions raised inside
`insert_document` / `insert_indicators` session runs. -/
structure NeoDeps where
  connTest : Except String Unit
  insertDocErr : Option String
  insertIndErr : Option String
  relGen : Nat → String

/-- A `(page-number, raw-text)` pair produced by the PDF extraction
collaborator. -/
structure Page where
  page : Nat
  text : String
  deriving Repr, DecidableEq

/-- All external collaborators of the per-document pipeline, injected as
the outcomes/functions the source consumes. -/
structure Deps where
  extract : Except String (List Page)
  langdetect : Except String String
  primary : Except String (List String)
  embed : String → List Int
  phoneOracle : String → String → Option (List String)
  docGen : String
  chunkGen : Nat → String
  neo4j : Option NeoDeps

/-- `config.CHUNK_SIZE`. -/
def CHUNK_SIZE : Nat := 500

/-- Python `" ".join`. -/
def joinSpace : List String → String
  | [] => ""
  | [s] => s
  | s :: rest => s ++ " " ++ joinSpace rest

/-- Line 395: the flat list of the indicator values of a chunk (dict
values in insertion order, flattened). -/
def flatIndicators (i : Indicators) : List String :=
  i.toPairs.flatMap fun cv => cv.2

/-- The chunk-insertion loop of `process_pdf` (lines 393–396):
`enumerate(chunks, start=1)` supplies `page = i`. -/
def insertChunksLoop (deps : Deps) (docUuid lang : String) :
    PGState → Nat → List String → PGState
  | st, _, [] => st
  | st, i, c :: rest =>
    let inds := flatIndicators (extract_indicators_by_category deps.phoneOracle c)
    let (_, st1) := insert_chunk deps.embed st docUuid c inds i lang (deps.chunkGen i)
    insertChunksLoop deps docUuid lang st1 (i+1) rest

/-- The graph-mirroring phase of `process_pdf` (lines 400–410): repository
construction (connection test), document-node merge, per-page indicator
extraction over cleaned page texts, and indicator/mention insertion. -/
def neoPhase (nd : NeoDeps) (po : String → String → Option (List String))
    (docUuid : String) (rawPages : List Page) : Except String (List MentionOp) := do
  let _ ← nd.connTest
  match nd.insertDocErr with
  | some e => throw e
  | none =>
    let byPage := rawPages.map fun p =>
      (p.page, extract_indicators_by_category po (clean_text p.text))
    match nd.insertIndErr with
    | some e => throw e
    | none => pure (insert_indicators docUuid byPage nd.relGen)

/-- The `_metadata` block written into the indicators JSON. -/
structure RunMetadata where
  document_uuid : String
  document_name : String
  language : String
  total_pages : Nat
  neo4j_success : Bool
  deriving Repr, DecidableEq

/-- The two local artifacts saved by `FileManager.save_clean_and_json`. -/
structure Artifacts where
  clean_text : String
  indicators : Indicators
  metadata : RunMetadata
  deriving Repr, DecidableEq

/-- Observable outcome of one `process_pdf` run. -/
structure ProcessResult where
  pg : PGState
  docUuid : String
  graphOps : List MentionOp
  artifacts : Artifacts
  deriving Repr, DecidableEq

/-- `PDFProcessor.process_pdf`: extraction, cleaning, language detection,
document upsert, chunking, chunk inserts, the independently-wrapped
graph phase (its failure only clears `neo4j_success`), and the artifact
write.  A failure of the required phase is re-raised (`.error`). -/
def process_pdf (deps : Deps) (docName path : String) (st : PGState) :
    Except String ProcessResult :=
  match deps.extract with
  | .error e => .error e
  | .ok rawPages =>
    let fullText := joinSpace (rawPages.map fun p => clean_text p.text)
    let lang := detect_language deps.langdetect
    let (docUuid, st1) := insert_document st docName path lang deps.docGen
    let chunks := chunk_text deps.primary CHUNK_SIZE fullText
    let st2 := insertChunksLoop deps docUuid lang st1 1 chunks
    let no :=
      match deps.neo4j with
      | none => (true, [])
      | some nd =>
        match neoPhase nd deps.phoneOracle docUuid rawPages with
        | .ok ops => (true, ops)
        | .error _ => (false, [])
    let inds := extract_indicators_by_category deps.phoneOracle fullText
    let md : RunMetadata :=
      { document_uuid := docUuid, document_name := docName, language := lang,
        total_pages := rawPages.length, neo4j_success := no.1 }
    let arts : Artifacts :=
      { clean_text := fullText, indicators := inds, metadata := md }
    .ok { pg := st2, docUuid := docUuid, graphOps := no.2, artifacts := arts }

/-- Console log events of the batch driver. -/
inductive LogEvent where
  | fileNotFound (path : String)
  | procError (path : String) (err : String)
  | summary (ok total : Nat)
  | noPdfs
  deriving Repr, DecidableEq

/-- One entry of `config.PDFS` with its existence check and the
collaborators its pipeline run would consume. -/
structure BatchDoc where
  path : String
  name : String
  present : Bool
  deps : Deps

/-- One iteration of the batch loop of `process_multiple_pdfs`. -/
def batchStep (acc : Nat × PGState × List LogEvent) (d : BatchDoc) :
    Nat × PGState × List LogEvent :=
  if d.present then
    match process_pdf d.deps d.name d.path acc.2.1 with
    | .ok r => (acc.1 + 1, r.pg, acc.2.2)
    | .error e => (acc.1, acc.2.1, acc.2.2 ++ [.procError d.path e])
  else (acc.1, acc.2.1, acc.2.2 ++ [.fileNotFound d.path])

/-- `PDFProcessor.process_multiple_pdfs`: skip missing files with a log
line, catch per-document failures and continue, and finally report the
processed count out of the list length.  An empty configured list only
logs a warning. -/
def process_multiple_pdfs (docs : List BatchDoc) (st : PGState) :
    Nat × PGState × List LogEvent :=
  if docs.isEmpty then (0, st, [.noPdfs])
  else
    let r := docs.foldl batchStep (0, st, [])
    (r.1, r.2.1, r.2.2 ++ [.summary r.1 docs.length])

/-! ## Claims -/

/-- Claim C5: for every phone collaborator and every input text, each of
the seven categories returned by `extract_indicators_by_category` is a
duplicate-free, lexicographically sorted sequence, and two runs on the
identical input return identical results. -/
theorem claim_c5_sorted_nodup_deterministic
    (po : String → String → Option (List String)) (text : String) :
    (List.Sorted (· ≤ ·) (extract_indicators_by_category po text).domains ∧
      (extract_indicators_by_category po text).domains.Nodup) ∧
    (List.Sorted (· ≤ ·) (extract_indicators_by_category po text).urls ∧
      (extract_indicators_by_category po text).urls.Nodup) ∧
    (List.Sorted (· ≤ ·) (extract_indicators_by_category po text).ips ∧
      (extract_indicators_by_category po text).ips.Nodup) ∧
    (List.Sorted (· ≤ ·) (extract_indicators_by_category po text).emails ∧
      (extract_indicators_by_category po text).emails.Nodup) ∧
    (List.Sorted (· ≤ ·) (extract_indicators_by_category po text).phones ∧
      (extract_indicators_by_category po text).phones.Nodup) ∧
    (List.Sorted (· ≤ ·) (extract_indicators_by_category po text).social_handles ∧
      (extract_indicators_by_category po text).social_handles.Nodup) ∧
    (List.Sorted (· ≤ ·) (extract_indicators_by_category po text).tracking_ids ∧
      (extract_indicators_by_category po text).tracking_ids.Nodup) ∧
    extract_indicators_by_category po text = extract_indicators_by_category po text := by
  refine ⟨⟨?_, ?_⟩, ⟨?_, ?_⟩, ⟨?_, ?_⟩, ⟨?_, ?_⟩, ⟨?_, ?_⟩, ⟨?_, ?_⟩, ⟨?_, ?_⟩, rfl⟩ <;>
    first
      | exact sortedSet_sorted _
      | exact sortedSet_nodup _

/-- Claim C2: document upsert is idempotent and first-write-wins by name:
a second `insert_document` call with the same name (any path/language)
returns the identity of the first call and leaves the store untouched;
when the name was fresh, the stored row keeps the first call's path and
language. -/
theorem claim_c2_insert_document (st : PGState) (name p1 l1 u1 p2 l2 u2 : String) :
    (insert_document (insert_document st name p1 l1 u1).2 name p2 l2 u2).1 =
      (insert_document st name p1 l1 u1).1 ∧
    (insert_document (insert_document st name p1 l1 u1).2 name p2 l2 u2).2 =
      (insert_document st name p1 l1 u1).2 ∧
    (findByName st.documents name = none →
      (insert_document st name p1 l1 u1).1 = u1 ∧
      findByName (insert_document st name p1 l1 u1).2.documents name =
        some ⟨u1, name, p1, l1⟩) := by
  cases h : findByName st.documents name with
  | some r => simp [insert_document, h]
  | none =>
    have hfind : findByName
        (st.documents ++ [(⟨u1, name, p1, l1⟩ : DocumentRow)]) name =
        some ⟨u1, name, p1, l1⟩ := by
      unfold findByName at h ⊢
      rw [List.find?_append, h]
      simp
    simp [insert_document, h, hfind]

/-- Witness for claim C2 at a concrete fresh store. -/
theorem claim_c2_witness :
    findByName (PGState.mk [] []).documents "rpt" = none ∧
    ((insert_document (insert_document ⟨[], []⟩ "rpt" "/a.pdf" "en" "U1").2
        "rpt" "/b.pdf" "fr" "U2").1 =
      (insert_document (⟨[], []⟩ : PGState) "rpt" "/a.pdf" "en" "U1").1 ∧
    (insert_document (insert_document ⟨[], []⟩ "rpt" "/a.pdf" "en" "U1").2
        "rpt" "/b.pdf" "fr" "U2").2 =
      (insert_document (⟨[], []⟩ : PGState) "rpt" "/a.pdf" "en" "U1").2 ∧
    (findByName (PGState.mk [] []).documents "rpt" = none →
      (insert_document (⟨[], []⟩ : PGState) "rpt" "/a.pdf" "en" "U1").1 = "U1" ∧
      findByName (insert_document (⟨[], []⟩ : PGState) "rpt" "/a.pdf" "en"
        "U1").2.documents "rpt" = some ⟨"U1", "rpt", "/a.pdf", "en"⟩)) :=
  ⟨by decide, claim_c2_insert_document ⟨[], []⟩ "rpt" "/a.pdf" "en" "U1" "/b.pdf" "fr" "U2"⟩

/-- Every mention operation's indicator node key is the namespaced UUIDv5
of its own `category:value` string. -/
theorem ind_uuid_of_mem {op : MentionOp} {d : String}
    {bp : List (Nat × Indicators)} {g : Nat → String}
    (h : op ∈ insert_indicators d bp g) :
    op.ind_uuid = uuid5DNS (op.cat ++ ":" ++ op.val) := by
  unfold insert_indicators at h
  rw [List.mem_map] at h
  obtain ⟨it, -, rfl⟩ := h
  rfl

/-- Claim C3: the indicator identity assigned by `insert_indicators` is a
pure deterministic function of the (category, value) pair: any two
mention operations with the same category and value — across documents,
pages, runs, and relationship-uuid streams — carry the same indicator
node identity, namely the namespaced UUIDv5 of `category:value` (no
runtime built-in hashing). -/
theorem claim_c3_indicator_identity
    (d1 d2 : String) (bp1 bp2 : List (Nat × Indicators)) (g1 g2 : Nat → String)
    (op1 op2 : MentionOp)
    (h1 : op1 ∈ insert_indicators d1 bp1 g1)
    (h2 : op2 ∈ insert_indicators d2 bp2 g2)
    (hc : op1.cat = op2.cat) (hv : op1.val = op2.val) :
    op1.ind_uuid = op2.ind_uuid ∧
    op1.ind_uuid = uuid5DNS (op1.cat ++ ":" ++ op1.val) := by
  have e1 := ind_uuid_of_mem h1
  have e2 := ind_uuid_of_mem h2
  refine ⟨?_, e1⟩
  rw [e1, e2, hc, hv]

/-- The extraction result used by the C3 witness. -/
def c3Ind : Indicators := ⟨[], [], ["8.8.8.8"], [], [], [], []⟩

set_option maxRecDepth 1000000 in
/-- Witness for claim C3: the same value found in two different documents
on two different pages with two different relationship-uuid streams gets
one indicator identity. -/
theorem claim_c3_witness :
    (⟨uuid5DNS "ips:8.8.8.8", "8.8.8.8", "ips", "DOC-A", "1", "RA"⟩ : MentionOp) ∈
      insert_indicators "DOC-A" [(1, c3Ind)] (fun _ => "RA") ∧
    (⟨uuid5DNS "ips:8.8.8.8", "8.8.8.8", "ips", "DOC-B", "9", "RB"⟩ : MentionOp) ∈
      insert_indicators "DOC-B" [(9, c3Ind)] (fun _ => "RB") ∧
    (⟨uuid5DNS "ips:8.8.8.8", "8.8.8.8", "ips", "DOC-A", "1", "RA"⟩ : MentionOp).ind_uuid =
      (⟨uuid5DNS "ips:8.8.8.8", "8.8.8.8", "ips", "DOC-B", "9", "RB"⟩ : MentionOp).ind_uuid := by
  have m1 : (⟨uuid5DNS "ips:8.8.8.8", "8.8.8.8", "ips", "DOC-A", "1", "RA"⟩ : MentionOp) ∈
      insert_indicators "DOC-A" [(1, c3Ind)] (fun _ => "RA") := by decide
  have m2 : (⟨uuid5DNS "ips:8.8.8.8", "8.8.8.8", "ips", "DOC-B", "9", "RB"⟩ : MentionOp) ∈
      insert_indicators "DOC-B" [(9, c3Ind)] (fun _ => "RB") := by decide
  exact ⟨m1, m2,
    (claim_c3_indicator_identity "DOC-A" "DOC-B" _ _ _ _ _ _ m1 m2 rfl rfl).1⟩

/-- Claim C6: a dotted-quad candidate enters the `ips` set exactly when
it is a strictly valid IPv4 address (four octets 0–255, no leading
zeros — the acceptance of `ipaddress.ip_address`); invalid candidates
are skipped silently while valid candidates in the same text are still
processed, as in the `999.1.1.1` / `8.8.8.8` scenario. -/
theorem claim_c6_ip_validation :
    (∀ (po : String → String → Option (List String)) (text s : String),
      s ∈ (extract_indicators_by_category po text).ips ↔
        ∃ m, m ∈ ipFindall text.data ∧ isValidIPv4 m = true ∧ s = String.mk m) ∧
    (extract_indicators_by_category (fun _ _ => none) "999.1.1.1 and 8.8.8.8").ips =
      ["8.8.8.8"] := by
  constructor
  · intro po text s
    show s ∈ sortedSet (((ipFindall text.data).filter isValidIPv4).map String.mk) ↔ _
    rw [mem_sortedSet, List.mem_map]
    constructor
    · rintro ⟨m, hm, rfl⟩
      rw [List.mem_filter] at hm
      exact ⟨m, hm.1, hm.2, rfl⟩
    · rintro ⟨m, hm, hv, rfl⟩
      exact ⟨m, List.mem_filter.2 ⟨hm, hv⟩, rfl⟩
  · decide

/-- The end-to-end scenario text of claim C1. -/
def c1text : String :=
  "Email: alerts@ti-example.com, IP 10.0.0.5, see https://bad-domain.test/payload.exe"

/-- The domains field of an extraction, by definition. -/
theorem extract_domains_eq (po : String → String → Option (List String))
    (text : String) :
    (extract_indicators_by_category po text).domains =
      sortedSet (((domainFindall text.data).filter fun m =>
        !(file_exts.any fun e =>
          endsWithSeq ('.' :: e.data) (lowerStr m))).map fun m =>
            String.mk (lowerStr m)) := rfl

/-- The urls field of an extraction, by definition. -/
theorem extract_urls_eq (po : String → String → Option (List String))
    (text : String) :
    (extract_indicators_by_category po text).urls =
      sortedSet ((urlFindall text.data).map String.mk) := rfl

/-- The ips field of an extraction, by definition. -/
theorem extract_ips_eq (po : String → String → Option (List String))
    (text : String) :
    (extract_indicators_by_category po text).ips =
      sortedSet (((ipFindall text.data).filter isValidIPv4).map String.mk) := rfl

/-- The emails field of an extraction, by definition. -/
theorem extract_emails_eq (po : String → String → Option (List String))
    (text : String) :
    (extract_indicators_by_category po text).emails =
      sortedSet ((emailFindall text.data).map fun m =>
        String.mk (lowerStr m)) := rfl

/-- The social-handles field of an extraction, by definition. -/
theorem extract_social_eq (po : String → String → Option (List String))
    (text : String) :
    (extract_indicators_by_category po text).social_handles =
      sortedSet ((socialFindall text.data).map String.mk) := rfl

set_option maxRecDepth 1000000 in
/-- Claim C1 (counterexample): on the claimed scenario text the domains
category is not `["bad-domain.test"]`; in particular `"payload.exe"` is
extracted as a domain, because `"exe"` is a 2–6 letter top-level label
and is not in the enumerated `file_exts` list. -/
theorem claim_c1_counterexample :
    (extract_indicators_by_category (fun _ _ => none) c1text).domains =
      ["bad-domain.test", "payload.exe", "ti-example.com"] ∧
    (extract_indicators_by_category (fun _ _ => none) c1text).domains ≠
      ["bad-domain.test"] := by
  refine ⟨by decide, ?_⟩
  intro h
  rw [show (extract_indicators_by_category (fun _ _ => none) c1text).domains =
    ["bad-domain.test", "payload.exe", "ti-example.com"] from by decide] at h
  exact absurd h (by decide)

set_option maxRecDepth 1000000 in
/-- Claim C1 (amended): on the scenario text the extractor returns
exactly `emails = ["alerts@ti-example.com"]`, `ips = ["10.0.0.5"]`,
`urls = ["https://bad-domain.test/payload.exe"]`, and `domains =
["bad-domain.test", "payload.exe", "ti-example.com"]` (the email's host
and the URL's `payload.exe` file name also match the domain pattern),
for every phone collaborator. -/
theorem claim_c1_amended (po : String → String → Option (List String)) :
    (extract_indicators_by_category po c1text).emails = ["alerts@ti-example.com"] ∧
    (extract_indicators_by_category po c1text).ips = ["10.0.0.5"] ∧
    (extract_indicators_by_category po c1text).urls =
      ["https://bad-domain.test/payload.exe"] ∧
    (extract_indicators_by_category po c1text).domains =
      ["bad-domain.test", "payload.exe", "ti-example.com"] := by
  refine ⟨?_, ?_, ?_, ?_⟩
  · rw [extract_emails_eq]; decide
  · rw [extract_ips_eq]; decide
  · rw [extract_urls_eq]; decide
  · rw [extract_domains_eq]; decide

/-- Whether an `Except` is a success. -/
def exceptOk {ε α : Type} : Except ε α → Bool
  | .ok _ => true
  | .error _ => false

/-- The per-document pipeline succeeds exactly when its required
extraction phase does. -/
theorem process_pdf_ok_iff (deps : Deps) (docName path : String) (st : PGState) :
    exceptOk (process_pdf deps docName path st) = exceptOk deps.extract := by
  cases h : deps.extract <;> simp [process_pdf, h, exceptOk]

/-- The batch loop counts exactly the documents that exist and whose
pipeline succeeds. -/
theorem batch_count_aux :
    ∀ (docs : List BatchDoc) (n : Nat) (st : PGState) (logs : List LogEvent),
      (docs.foldl batchStep (n, st, logs)).1 =
        n + (docs.filter fun d => d.present && exceptOk d.deps.extract).length := by
  intro docs
  induction docs with
  | nil => intro n st logs; simp
  | cons d rest ih =>
    intro n st logs
    rw [List.foldl_cons, List.filter_cons]
    by_cases hp : d.present
    · cases he : process_pdf d.deps d.name d.path st with
      | ok r =>
        have hok : exceptOk d.deps.extract = true := by
          rw [← process_pdf_ok_iff d.deps d.name d.path st, he]; rfl
        simp only [batchStep, hp, if_true, he, hok, Bool.and_true, ih,
          List.length_cons]
        omega
      | error e =>
        have hok : exceptOk d.deps.extract = false := by
          rw [← process_pdf_ok_iff d.deps d.name d.path st, he]; rfl
        simp [batchStep, hp, he, hok, ih]
    · simp [batchStep, hp, ih]

/-- The dependencies of the successfully processed batch document. -/
def c8okDeps : Deps :=
  { extract := .ok [⟨1, "ok doc"⟩], langdetect := .ok "en",
    primary := .ok ["ok doc"], embed := fun _ => [],
    phoneOracle := fun _ _ => none, docGen := "DA",
    chunkGen := fun i => "CA" ++ toString i, neo4j := none }

/-- The batch of claim C8: the second path is missing, the third raises
during extraction. -/
def c8docs : List BatchDoc :=
  [⟨"/pdfs/a.pdf", "a", true, c8okDeps⟩,
   ⟨"/pdfs/b.pdf", "b", false, c8okDeps⟩,
   ⟨"/pdfs/c.pdf", "c", true,
     { c8okDeps with extract := .error "extraction failed" }⟩]

set_option maxRecDepth 1000000 in
/-- Claim C8: the batch driver skips missing paths with a log entry,
catches a failing pipeline and continues, and reports the number of
successfully processed documents out of the list length; on the
three-document scenario (second missing, third failing at extraction)
it reports 1 of 3 with the expected log entries. -/
theorem claim_c8_batch :
    (∀ (docs : List BatchDoc) (st : PGState),
      (process_multiple_pdfs docs st).1 =
        (docs.filter fun d => d.present && exceptOk d.deps.extract).length) ∧
    (process_multiple_pdfs c8docs ⟨[], []⟩).1 = 1 ∧
    c8docs.length = 3 ∧
    (process_multiple_pdfs c8docs ⟨[], []⟩).2.2 =
      [.fileNotFound "/pdfs/b.pdf", .procError "/pdfs/c.pdf" "extraction failed",
       .summary 1 3] := by
  refine ⟨?_, by decide, by decide, by decide⟩
  intro docs st
  unfold process_multiple_pdfs
  by_cases h : docs.isEmpty
  · rw [if_pos h]
    rw [List.isEmpty_iff] at h
    subst h
    rfl
  · rw [if_neg h]
    show (List.foldl batchStep (0, st, []) docs).1 = _
    rw [batch_count_aux docs 0 st []]
    omega

/-- If any of the graph phase's three failure points fires, the whole
phase raises. -/
theorem neoPhase_error (nd : NeoDeps) (po : String → String → Option (List String))
    (docUuid : String) (pages : List Page)
    (hfail : exceptOk nd.connTest = false ∨ nd.insertDocErr.isSome = true ∨
      nd.insertIndErr.isSome = true) :
    ∃ e, neoPhase nd po docUuid pages = .error e := by
  cases hc : nd.connTest with
  | error e => exact ⟨e, by unfold neoPhase; rw [hc]; rfl⟩
  | ok u =>
    cases hd : nd.insertDocErr with
    | some e => exact ⟨e, by unfold neoPhase; rw [hc, hd]; rfl⟩
    | none =>
      cases hi : nd.insertIndErr with
      | some e => exact ⟨e, by unfold neoPhase; rw [hc, hd, hi]; rfl⟩
      | none =>
        rcases hfail with h | h | h
        · rw [hc] at h; exact absurd h (by simp [exceptOk])
        · rw [hd] at h; exact absurd h (by simp)
        · rw [hi] at h; exact absurd h (by simp)

/-- Claim C4: when the graph-mirroring phase raises at any of its three
points (repository construction, document-node insert, indicator
insert) while the required phase succeeds, `process_pdf` still returns
successfully (no re-raise), the run metadata records
`neo4j_success = false`, and the local artifacts (clean text and the
document-level indicators) are written as usual. -/
theorem claim_c4_graph_degradation
    (deps : Deps) (docName path : String) (st : PGState)
    (pages : List Page) (nd : NeoDeps)
    (hex : deps.extract = .ok pages)
    (hnd : deps.neo4j = some nd)
    (hfail : exceptOk nd.connTest = false ∨ nd.insertDocErr.isSome = true ∨
      nd.insertIndErr.isSome = true) :
    ∃ r, process_pdf deps docName path st = .ok r ∧
      r.artifacts.metadata.neo4j_success = false ∧
      r.artifacts.clean_text = joinSpace (pages.map fun p => clean_text p.text) ∧
      r.artifacts.indicators = extract_indicators_by_category deps.phoneOracle
        (joinSpace (pages.map fun p => clean_text p.text)) := by
  obtain ⟨e, he⟩ := neoPhase_error nd deps.phoneOracle
    (insert_document st docName path (detect_language deps.langdetect) deps.docGen).1
    pages hfail
  cases hpp : process_pdf deps docName path st with
  | error e2 =>
    have hiff := process_pdf_ok_iff deps docName path st
    rw [hpp, hex] at hiff
    exact absurd hiff (by simp [exceptOk])
  | ok r =>
    simp only [process_pdf, hex, hnd, he] at hpp
    rw [Except.ok.injEq] at hpp
    subst hpp
    exact ⟨_, rfl, rfl, rfl, rfl⟩

/-- Relationship-uuid stream of the C4 witness. -/
def c4rel : Nat → String := fun i => "R4-" ++ toString i

/-- Dependencies of the C4 witness: a reachable document whose graph
store refuses the connection. -/
def c4deps : Deps :=
  { extract := .ok [⟨1, "see 8.8.8.8"⟩, ⟨2, "ok"⟩], langdetect := .ok "en",
    primary := .ok ["see 8.8.8.8 ok"], embed := fun _ => [],
    phoneOracle := fun _ _ => none, docGen := "D4",
    chunkGen := fun i => "C4-" ++ toString i,
    neo4j := some ⟨.error "connection refused", none, none, c4rel⟩ }

/-- Witness for claim C4 at a concrete failing graph store. -/
theorem claim_c4_witness :
    c4deps.extract = .ok [⟨1, "see 8.8.8.8"⟩, ⟨2, "ok"⟩] ∧
    c4deps.neo4j = some ⟨.error "connection refused", none, none, c4rel⟩ ∧
    exceptOk (Except.error "connection refused" : Except String Unit) = false ∧
    (∃ r, process_pdf c4deps "doc4" "/pdfs/doc4.pdf" ⟨[], []⟩ = .ok r ∧
      r.artifacts.metadata.neo4j_success = false ∧
      r.artifacts.clean_text = joinSpace
        (([⟨1, "see 8.8.8.8"⟩, ⟨2, "ok"⟩] : List Page).map fun p => clean_text p.text) ∧
      r.artifacts.indicators = extract_indicators_by_category c4deps.phoneOracle
        (joinSpace (([⟨1, "see 8.8.8.8"⟩, ⟨2, "ok"⟩] : List Page).map
          fun p => clean_text p.text))) :=
  ⟨rfl, rfl, rfl,
    claim_c4_graph_degradation c4deps "doc4" "/pdfs/doc4.pdf" ⟨[], []⟩ _ _ rfl rfl
      (Or.inl rfl)⟩

/-- `insert_document` never touches the chunks table. -/
theorem insert_document_chunks (st : PGState) (name path lang u : String) :
    (insert_document st name path lang u).2.chunks = st.chunks := by
  cases h : findByName st.documents name <;> simp [insert_document, h]

/-- The chunk rows appended by the insertion loop, starting at page `i`. -/
def chunkRowsFrom (deps : Deps) (docUuid lang : String) :
    Nat → List String → List ChunkRow
  | _, [] => []
  | i, c :: rest =>
    ⟨deps.chunkGen i, docUuid, c, deps.embed c,
      flatIndicators (extract_indicators_by_category deps.phoneOracle c), i, lang⟩ ::
    chunkRowsFrom deps docUuid lang (i+1) rest

/-- The insertion loop appends exactly the rows of `chunkRowsFrom`. -/
theorem insertChunksLoop_chunks (deps : Deps) (docUuid lang : String) :
    ∀ (cs : List String) (st : PGState) (i : Nat),
      (insertChunksLoop deps docUuid lang st i cs).chunks =
        st.chunks ++ chunkRowsFrom deps docUuid lang i cs := by
  intro cs
  induction cs with
  | nil => intro st i; simp [insertChunksLoop, chunkRowsFrom]
  | cons c rest ih =>
    intro st i
    simp [insertChunksLoop, chunkRowsFrom, insert_chunk, ih]

/-- The pages of the appended chunk rows are consecutive from `i`. -/
theorem chunkRowsFrom_pages (deps : Deps) (docUuid lang : String) :
    ∀ (cs : List String) (i : Nat),
      (chunkRowsFrom deps docUuid lang i cs).map ChunkRow.page =
        List.range' i cs.length := by
  intro cs
  induction cs with
  | nil => intro i; rfl
  | cons c rest ih => intro i; simp [chunkRowsFrom, List.range'_succ, ih]

/-- The texts of the appended chunk rows are the chunks themselves. -/
theorem chunkRowsFrom_texts (deps : Deps) (docUuid lang : String) :
    ∀ (cs : List String) (i : Nat),
      (chunkRowsFrom deps docUuid lang i cs).map ChunkRow.text = cs := by
  intro cs
  induction cs with
  | nil => intro i; rfl
  | cons c rest ih => intro i; simp [chunkRowsFrom, ih]

/-- Every mention operation's page comes from the per-page indicator
mapping it was built from. -/
theorem insert_indicators_pages (doc : String) (byPage : List (Nat × Indicators))
    (g : Nat → String) :
    ∀ op ∈ insert_indicators doc byPage g, ∃ pi ∈ byPage, op.page = toString pi.1 := by
  intro op h
  unfold insert_indicators at h
  rw [List.mem_map] at h
  obtain ⟨it, hit, rfl⟩ := h
  have h2 : it.2 ∈ byPage.flatMap fun pi =>
      pi.2.toPairs.flatMap fun cv => cv.2.map fun v => (pi.1, cv.1, v) := by
    have := List.mem_map_of_mem Prod.snd hit
    rwa [List.enum_map_snd] at this
  rw [List.mem_flatMap] at h2
  obtain ⟨pi, hpi, h3⟩ := h2
  rw [List.mem_flatMap] at h3
  obtain ⟨cv, -, h4⟩ := h3
  rw [List.mem_map] at h4
  obtain ⟨v, -, h5⟩ := h4
  exact ⟨pi, hpi, by rw [← h5]⟩

/-- A successful graph phase returns exactly the mention operations built
from the per-page extractions. -/
theorem neoPhase_ok_eq (nd : NeoDeps) (po : String → String → Option (List String))
    (docUuid : String) (pages : List Page) (ops : List MentionOp)
    (h : neoPhase nd po docUuid pages = .ok ops) :
    ops = insert_indicators docUuid
      (pages.map fun p => (p.page, extract_indicators_by_category po (clean_text p.text)))
      nd.relGen := by
  unfold neoPhase at h
  cases hc : nd.connTest <;> rw [hc] at h
  · exact Except.noConfusion (show (Except.error _ : Except String (List MentionOp)) =
      .ok ops from h)
  · cases hd : nd.insertDocErr <;> rw [hd] at h
    · cases hi : nd.insertIndErr <;> rw [hi] at h
      · exact (Except.ok.inj (show (Except.ok _ : Except String (List MentionOp)) =
          .ok ops from h)).symm
      · exact Except.noConfusion (show (Except.error _ : Except String (List MentionOp)) =
          .ok ops from h)
    · exact Except.noConfusion (show (Except.error _ : Except String (List MentionOp)) =
        .ok ops from h)

/-- Claim C9: the page stored with each relational chunk row is the
chunk's 1-based position in the document's chunk sequence (row `i`
carries page `i` and the `i`-th chunk text), while the graph-store
mention edges of the same run carry the actual extracted page
numbers. -/
theorem claim_c9_chunk_pages
    (deps : Deps) (docName path : String) (st : PGState) (pages : List Page)
    (r : ProcessResult)
    (hex : deps.extract = .ok pages)
    (h : process_pdf deps docName path st = .ok r) :
    (r.pg.chunks.drop st.chunks.length).map ChunkRow.page =
      List.range' 1 (chunk_text deps.primary CHUNK_SIZE
        (joinSpace (pages.map fun p => clean_text p.text))).length ∧
    (r.pg.chunks.drop st.chunks.length).map ChunkRow.text =
      chunk_text deps.primary CHUNK_SIZE
        (joinSpace (pages.map fun p => clean_text p.text)) ∧
    ∀ op ∈ r.graphOps, op.page ∈ pages.map fun p => toString p.page := by
  simp only [process_pdf, hex] at h
  rw [Except.ok.injEq] at h
  subst h
  refine ⟨?_, ?_, ?_⟩
  · show (((insertChunksLoop deps _ _ _ 1 _).chunks).drop st.chunks.length).map _ = _
    rw [insertChunksLoop_chunks, insert_document_chunks, List.drop_left,
      chunkRowsFrom_pages]
  · show (((insertChunksLoop deps _ _ _ 1 _).chunks).drop st.chunks.length).map _ = _
    rw [insertChunksLoop_chunks, insert_document_chunks, List.drop_left,
      chunkRowsFrom_texts]
  · show ∀ op ∈ (match deps.neo4j with
      | none => (true, ([] : List MentionOp))
      | some nd =>
        match neoPhase nd deps.phoneOracle
            (insert_document st docName path (detect_language deps.langdetect)
              deps.docGen).1 pages with
        | .ok ops => (true, ops)
        | .error _ => (false, [])).2,
      op.page ∈ pages.map fun p => toString p.page
    cases hn : deps.neo4j with
    | none => intro op hop; simp only at hop; exact absurd hop (by simp)
    | some nd =>
      intro op hop
      cases hnp : neoPhase nd deps.phoneOracle
          (insert_document st docName path (detect_language deps.langdetect)
            deps.docGen).1 pages with
      | error e =>
        simp only [hnp] at hop
        exact absurd hop (by simp)
      | ok ops =>
        simp only [hnp] at hop
        rw [neoPhase_ok_eq nd deps.phoneOracle _ pages ops hnp] at hop
        obtain ⟨pi, hpi, hpage⟩ := insert_indicators_pages _ _ _ op hop
        rw [List.mem_map] at hpi
        obtain ⟨p, hp, rfl⟩ := hpi
        exact List.mem_map.2 ⟨p, hp, hpage.symm⟩

/-- Dependencies of the C9 witness: two extracted pages but three chunks,
with a healthy graph store. -/
def c9deps : Deps :=
  { extract := .ok [⟨1, "ip 8.8.8.8"⟩, ⟨2, "b"⟩], langdetect := .ok "en",
    primary := .ok ["x", "y", "z"], embed := fun _ => [],
    phoneOracle := fun _ _ => none, docGen := "D9",
    chunkGen := fun i => "C9-" ++ toString i,
    neo4j := some ⟨.ok (), none, none, fun i => "R9-" ++ toString i⟩ }

/-- The result of the C9 witness run. -/
def c9res : ProcessResult :=
  { pg := { documents := [⟨"D9", "doc9", "/p9", "en"⟩],
            chunks := [⟨"C9-1", "D9", "x", [], [], 1, "en"⟩,
                       ⟨"C9-2", "D9", "y", [], [], 2, "en"⟩,
                       ⟨"C9-3", "D9", "z", [], [], 3, "en"⟩] },
    docUuid := "D9",
    graphOps := [⟨uuid5DNS "ips:8.8.8.8", "8.8.8.8", "ips", "D9", "1", "R9-0"⟩],
    artifacts := { clean_text := "ip 8.8.8.8 b",
                   indicators := ⟨[], [], ["8.8.8.8"], [], [], [], []⟩,
                   metadata := ⟨"D9", "doc9", "en", 2, true⟩ } }

set_option maxRecDepth 1000000 in
/-- Witness for claim C9: three chunks over a two-page document get pages
1, 2, 3 in the relational rows while the mention edge keeps source page
1. -/
theorem claim_c9_witness :
    c9deps.extract = .ok [⟨1, "ip 8.8.8.8"⟩, ⟨2, "b"⟩] ∧
    process_pdf c9deps "doc9" "/p9" ⟨[], []⟩ = .ok c9res ∧
    ((c9res.pg.chunks.drop (PGState.mk [] []).chunks.length).map ChunkRow.page =
      List.range' 1 (chunk_text c9deps.primary CHUNK_SIZE
        (joinSpace (([⟨1, "ip 8.8.8.8"⟩, ⟨2, "b"⟩] : List Page).map
          fun p => clean_text p.text))).length ∧
    (c9res.pg.chunks.drop (PGState.mk [] []).chunks.length).map ChunkRow.text =
      chunk_text c9deps.primary CHUNK_SIZE
        (joinSpace (([⟨1, "ip 8.8.8.8"⟩, ⟨2, "b"⟩] : List Page).map
          fun p => clean_text p.text)) ∧
    ∀ op ∈ c9res.graphOps, op.page ∈
      ([⟨1, "ip 8.8.8.8"⟩, ⟨2, "b"⟩] : List Page).map fun p => toString p.page) := by
  have hq : process_pdf c9deps "doc9" "/p9" ⟨[], []⟩ = .ok c9res := by rfl
  exact ⟨rfl, hq, claim_c9_chunk_pages c9deps "doc9" "/p9" ⟨[], []⟩ _ c9res rfl hq⟩

/-- Arbitrary-cut groups never exceed the chunk size (for positive
size and sufficient fuel). -/
theorem charChunksAux_bound (cs : Nat) (hcs : 1 ≤ cs) :
    ∀ (fuel : Nat) (l : List Char), l.length ≤ fuel →
      ∀ c ∈ charChunksAux cs fuel l, c.length ≤ cs := by
  intro fuel
  induction fuel with
  | zero =>
    intro l hl c hc
    have hnil : l = [] := List.eq_nil_of_length_eq_zero (Nat.le_zero.1 hl)
    subst hnil
    simp [charChunksAux] at hc
  | succ f ih =>
    intro l hl c hc
    simp only [charChunksAux] at hc
    by_cases h : l.length ≤ cs
    · rw [if_pos h] at hc
      by_cases he : l.isEmpty
      · rw [if_pos he] at hc
        exact absurd hc (by simp)
      · rw [if_neg he] at hc
        rw [List.mem_singleton] at hc
        subst hc
        exact h
    · rw [if_neg h] at hc
      rcases List.mem_cons.1 hc with rfl | hc'
      · rw [List.length_take]
        exact Nat.min_le_left cs l.length
      · refine ih (l.drop cs) ?_ c hc'
        rw [List.length_drop]
        omega

/-- The secondary splitter never returns an oversized segment when the
final arbitrary-cut separator is available. -/
theorem recursiveSplit_bound (cs : Nat) (hcs : 1 ≤ cs) :
    ∀ (seps : List (List Char)), [] ∈ seps →
      ∀ (t c : List Char), c ∈ recursiveSplit cs seps t → c.length ≤ cs := by
  intro seps
  induction seps with
  | nil => intro h; exact absurd h (List.not_mem_nil _)
  | cons sep rest ih =>
    intro hmem t c hc
    simp only [recursiveSplit] at hc
    by_cases ht : t.length ≤ cs
    · rw [if_pos ht] at hc
      rw [List.mem_singleton] at hc
      subst hc
      exact ht
    · rw [if_neg ht] at hc
      by_cases hse : sep.isEmpty
      · rw [if_pos hse] at hc
        simp only [charChunks] at hc
        exact charChunksAux_bound cs hcs t.length t le_rfl c hc
      · rw [if_neg hse] at hc
        have hrest : ([] : List Char) ∈ rest := by
          rcases List.mem_cons.1 hmem with h | h
          · rw [← h] at hse
            exact absurd (rfl : ([] : List Char).isEmpty = true) hse
          · exact h
        rw [List.mem_flatMap] at hc
        obtain ⟨piece, -, hcp⟩ := hc
        by_cases hp : piece.length ≤ cs
        · rw [if_pos hp] at hcp
          rw [List.mem_singleton] at hcp
          subst hcp
          exact hp
        · rw [if_neg hp] at hcp
          exact ih hrest piece c hcp

/-- Claim C7: under the primary strategy, oversized segments are re-split
in place by the secondary splitter (the flatMap form), so for any
`chunkSize ≥ 1` no returned segment exceeds `chunkSize`; if the primary
strategy raises, the entire text is split by the secondary strategy and
the function still returns normally. -/
theorem claim_c7_chunking (primary : Except String (List String))
    (chunkSize : Nat) (text : String) (err : String) (segs : List String)
    (hcs : 1 ≤ chunkSize) :
    (∀ seg ∈ chunk_text primary chunkSize text, seg.length ≤ chunkSize) ∧
    (chunk_text (.ok segs) chunkSize text = segs.flatMap fun c =>
      if chunkSize < c.length then
        (recursiveSplit chunkSize defaultSeparators c.data).map String.mk
      else [c]) ∧
    (chunk_text (.error err) chunkSize text =
      (recursiveSplit chunkSize defaultSeparators text.data).map String.mk) := by
  have hsep : ([] : List Char) ∈ defaultSeparators := by simp [defaultSeparators]
  refine ⟨?_, rfl, rfl⟩
  intro seg hseg
  cases primary with
  | ok chunks =>
    simp only [chunk_text] at hseg
    rw [List.mem_flatMap] at hseg
    obtain ⟨c, -, hcc⟩ := hseg
    by_cases h : chunkSize < c.length
    · rw [if_pos h] at hcc
      rw [List.mem_map] at hcc
      obtain ⟨l, hl, rfl⟩ := hcc
      show l.length ≤ chunkSize
      exact recursiveSplit_bound chunkSize hcs defaultSeparators hsep c.data l hl
    · rw [if_neg h] at hcc
      rw [List.mem_singleton] at hcc
      subst hcc
      omega
  | error e =>
    simp only [chunk_text] at hseg
    rw [List.mem_map] at hseg
    obtain ⟨l, hl, rfl⟩ := hseg
    show l.length ≤ chunkSize
    exact recursiveSplit_bound chunkSize hcs defaultSeparators hsep text.data l hl

/-- Witness for claim C7 at a concrete oversized primary segment. -/
theorem claim_c7_witness :
    1 ≤ 3 ∧
    ((∀ seg ∈ chunk_text (.ok ["ab c de", "xy"]) 3 "t", seg.length ≤ 3) ∧
    (chunk_text (.ok ["ab c de", "xy"]) 3 "t" =
      (["ab c de", "xy"] : List String).flatMap fun c =>
        if 3 < c.length then
          (recursiveSplit 3 defaultSeparators c.data).map String.mk
        else [c]) ∧
    (chunk_text (.error "spacy pipeline missing") 3 "t" =
      (recursiveSplit 3 defaultSeparators "t".data).map String.mk)) :=
  ⟨by decide,
    claim_c7_chunking (.ok ["ab c de", "xy"]) 3 "t" "spacy pipeline missing"
      ["ab c de", "xy"] (by decide)⟩

/-- `takeWhile` never yields more elements than its input. -/
theorem takeWhile_length_le (p : Char → Bool) :
    ∀ l : List Char, (l.takeWhile p).length ≤ l.length := by
  intro l
  induction l with
  | nil => simp
  | cons a l ih =>
    rw [List.takeWhile_cons]
    by_cases h : p a
    · simp only [h, if_true, List.length_cons]
      omega
    · simp [h]

/-- Appending after a list containing a failing element does not change
its `takeWhile`. -/
theorem takeWhile_append_of_exists {p : Char → Bool} :
    ∀ (l v : List Char), (∃ a ∈ l, p a = false) →
      (l ++ v).takeWhile p = l.takeWhile p := by
  intro l v h
  induction l with
  | nil =>
    obtain ⟨a, ha, -⟩ := h
    exact absurd ha (List.not_mem_nil a)
  | cons c cl ih =>
    rw [List.cons_append, List.takeWhile_cons, List.takeWhile_cons]
    by_cases hc : p c
    · rw [if_pos hc, if_pos hc, ih]
      obtain ⟨a, ha, hpa⟩ := h
      rcases List.mem_cons.1 ha with rfl | ha'
      · rw [hc] at hpa; exact absurd hpa (by simp)
      · exact ⟨a, ha', hpa⟩
    · rw [if_neg hc, if_neg hc]

/-- Unfolding of one scanner step. -/
theorem scan_cons_eq (tryf : List Char → Option (List Char × List Char))
    (f : Nat) (c : Char) (rest : List Char) :
    scan tryf (f+1) (c :: rest) =
      match tryf (c :: rest) with
      | some (m, rest') => m :: scan tryf f rest'
      | none => scan tryf f rest := rfl

/-- A successful attempt emits its match and resumes after it. -/
theorem scan_some {tryf : List Char → Option (List Char × List Char)}
    {f : Nat} {c : Char} {rest m rest' : List Char}
    (h : tryf (c :: rest) = some (m, rest')) :
    scan tryf (f+1) (c :: rest) = m :: scan tryf f rest' := by
  rw [scan_cons_eq, h]

/-- A failed attempt advances one character. -/
theorem scan_none {tryf : List Char → Option (List Char × List Char)}
    {f : Nat} {c : Char} {rest : List Char}
    (h : tryf (c :: rest) = none) :
    scan tryf (f+1) (c :: rest) = scan tryf f rest := by
  rw [scan_cons_eq, h]

/-- The social attempt fails away from `@`. -/
theorem trySocial_none_of_ne {c : Char} {rest : List Char} (hc : ¬ c = '@') :
    trySocial (c :: rest) = none := by
  simp [trySocial, hc]

/-- The social attempt fails at an `@` not followed by a word/hyphen
character. -/
theorem trySocial_none_of_empty {rest : List Char}
    (h : (rest.takeWhile isHandleChar).isEmpty = true) :
    trySocial ('@' :: rest) = none := by
  simp [trySocial, h]

/-- The social attempt at an `@` followed by a word/hyphen run emits the
`@` with the maximal run. -/
theorem trySocial_some_of_run {rest : List Char}
    (h : (rest.takeWhile isHandleChar).isEmpty = false) :
    trySocial ('@' :: rest) =
      some ('@' :: rest.takeWhile isHandleChar,
        rest.drop (rest.takeWhile isHandleChar).length) := by
  simp [trySocial, h]

/-- Wherever the text has an `@` followed by at least one word/hyphen
character, the social-handle scanner emits a match consisting of that
`@` and the maximal word/hyphen run after it. -/
theorem scan_social_mem :
    ∀ (fuel : Nat) (u d : List Char), (u ++ '@' :: d).length ≤ fuel →
      isHandleChar (d.headD ' ') = true →
      ('@' :: d.takeWhile isHandleChar) ∈ scan trySocial fuel (u ++ '@' :: d) := by
  intro fuel
  induction fuel with
  | zero =>
    intro u d hlen hh
    rw [List.length_append, List.length_cons] at hlen
    omega
  | succ f ih =>
    intro u d hlen hh
    obtain ⟨c0, d', rfl⟩ : ∃ c0 d', d = c0 :: d' := by
      cases d with
      | nil => exact absurd hh (by decide)
      | cons a b => exact ⟨a, b, rfl⟩
    have hc0 : isHandleChar c0 = true := hh
    have hrun : (c0 :: d').takeWhile isHandleChar =
        c0 :: d'.takeWhile isHandleChar := by
      rw [List.takeWhile_cons, if_pos hc0]
    cases u with
    | nil =>
      rw [List.nil_append,
        scan_some (trySocial_some_of_run (by rw [hrun]; rfl))]
      exact List.mem_cons_self _ _
    | cons c u' =>
      rw [List.cons_append]
      have hlen' : (u' ++ '@' :: c0 :: d').length ≤ f := by
        rw [List.length_append] at hlen ⊢
        simp only [List.length_cons] at hlen ⊢
        omega
      by_cases hc : c = '@'
      · subst hc
        by_cases hrune : ((u' ++ '@' :: c0 :: d').takeWhile isHandleChar).isEmpty = true
        · rw [scan_none (trySocial_none_of_empty hrune)]
          exact ih u' (c0 :: d') hlen' hh
        · rw [scan_some (trySocial_some_of_run (Bool.of_not_eq_true hrune))]
          refine List.mem_cons_of_mem _ ?_
          rw [List.takeWhile_append]
          by_cases hall : (u'.takeWhile isHandleChar).length = u'.length
          · rw [if_pos hall]
            have hat : ('@' :: c0 :: d').takeWhile isHandleChar = [] := by
              rw [List.takeWhile_cons, if_neg (by decide)]
            rw [hat, List.append_nil, List.drop_left]
            have hlen2 : (([] : List Char) ++ '@' :: c0 :: d').length ≤ f := by
              rw [List.nil_append]
              rw [List.length_append] at hlen'
              simp only [List.length_cons] at hlen' ⊢
              omega
            have hm := ih [] (c0 :: d') hlen2 hh
            rwa [List.nil_append] at hm
          · rw [if_neg hall]
            rw [List.drop_append_of_le_length (takeWhile_length_le _ u')]
            refine ih (u'.drop (u'.takeWhile isHandleChar).length) (c0 :: d') ?_ hh
            rw [List.length_append, List.length_drop]
            rw [List.length_append] at hlen'
            simp only [List.length_cons] at hlen' ⊢
            omega
      · rw [scan_none (trySocial_none_of_ne hc)]
        exact ih u' (c0 :: d') hlen' hh

set_option maxRecDepth 1000000 in
/-- Claim C10 (counterexample): `"a@..com"` is an email address
according to the extractor's own email matcher, yet no social handle at
all is extracted from it: its domain starts with a dot, and `@[\w\-]+`
needs a word or hyphen character right after the `@`. -/
theorem claim_c10_counterexample :
    (extract_indicators_by_category (fun _ _ => none) "a@..com").emails =
      ["a@..com"] ∧
    (extract_indicators_by_category (fun _ _ => none) "a@..com").social_handles =
      [] :=
  ⟨by decide, by decide⟩

/-- Claim C10 (amended): for every input text containing an email
address whose domain part begins with a word or hyphen character, the
social-handles category also contains the spurious entry consisting of
`@` followed by the leading word/hyphen characters of the email's
domain, because the social-handle pattern matches the `@` inside the
email. -/
theorem claim_c10_amended
    (po : String → String → Option (List String))
    (u loc x tld v : List Char)
    (hloc : loc ≠ [] ∧ loc.all isLocalChar = true)
    (hx : x ≠ [] ∧ x.all isEmailDomChar = true)
    (htld : 2 ≤ tld.length ∧ tld.all Char.isAlpha = true)
    (hhead : isHandleChar (x.headD ' ') = true) :
    String.mk ('@' :: (x ++ '.' :: tld).takeWhile isHandleChar) ∈
      (extract_indicators_by_category po
        (String.mk ((u ++ loc) ++ '@' :: ((x ++ '.' :: tld) ++ v)))).social_handles := by
  rw [extract_social_eq, mem_sortedSet]
  have htw : ((x ++ '.' :: tld) ++ v).takeWhile isHandleChar =
      (x ++ '.' :: tld).takeWhile isHandleChar := by
    apply takeWhile_append_of_exists
    exact ⟨'.', by simp, by decide⟩
  have hh2 : isHandleChar (((x ++ '.' :: tld) ++ v).headD ' ') = true := by
    obtain ⟨cx, x', rfl⟩ : ∃ cx x', x = cx :: x' := by
      cases x with
      | nil => exact absurd rfl hx.1
      | cons a b => exact ⟨a, b, rfl⟩
    exact hhead
  rw [← htw]
  exact List.mem_map_of_mem String.mk
    (scan_social_mem _ (u ++ loc) ((x ++ '.' :: tld) ++ v) le_rfl hh2)

set_option maxRecDepth 1000000 in
/-- Witness for the amended claim C10: the text
`"see alerts@ti-example.com now"` contains the email
`alerts@ti-example.com`, and the extractor also reports the spurious
social handle `@ti-example`. -/
theorem claim_c10_witness :
    ("alerts".data ≠ [] ∧ "alerts".data.all isLocalChar = true) ∧
    ("ti-example".data ≠ [] ∧ "ti-example".data.all isEmailDomChar = true) ∧
    (2 ≤ "com".data.length ∧ "com".data.all Char.isAlpha = true) ∧
    isHandleChar ("ti-example".data.headD ' ') = true ∧
    String.mk ('@' :: ("ti-example".data ++ '.' :: "com".data).takeWhile
      isHandleChar) ∈
      (extract_indicators_by_category (fun _ _ => none)
        (String.mk (("see ".data ++ "alerts".data) ++
          '@' :: (("ti-example".data ++ '.' :: "com".data) ++
            " now".data)))).social_handles ∧
    String.mk ('@' :: ("ti-example".data ++ '.' :: "com".data).takeWhile
      isHandleChar) = "@ti-example" := by
  refine ⟨⟨by decide, by decide⟩, ⟨by decide, by decide⟩, ⟨by decide, by decide⟩,
    by decide, ?_, by decide⟩
  exact claim_c10_amended (fun _ _ => none) "see ".data "alerts".data
    "ti-example".data "com".data " now".data ⟨by decide, by decide⟩
    ⟨by decide, by decide⟩ ⟨by decide, by decide⟩ (by decide)

end Pipeline
